import Mathlib

/-!
A shallow embedding in Lean 4 of `grader/grade.py`, the grading harness for a
candidate implementation of macro-averaged F1.

Modelling conventions:
* Python labels are modelled by the inductive type `Label`, a tagged union over
  the label kinds the grader exercises (ints, bools, strings, floats including
  NaN and infinities, tuples, frozensets) plus the module-level `_SENTINEL_NAN`
  object.
* Python floats are modelled exactly by `PFloat`: a rational value, an infinity,
  or a NaN carrying an abstract payload (so that distinct NaN productions can be
  told apart by the model, as distinct NaN objects are in CPython).  Float
  arithmetic performed by the grader (divisions, sums, means) is modelled with
  exact rational arithmetic.
* Python `==` is modelled by `pyEq`.  Inside containers (tuples, frozensets,
  lists) CPython compares elements with `PyObject_RichCompareBool`, which short
  circuits on object identity before calling `==`; object identity is
  approximated by structural sameness of the modelled value (`structEq`).
* Exceptions are modelled with `Except`: `sys.exit` / `raise` become `.error`.
* General iterables are modelled as lists; `_materialize` is the identity on
  this representation (it converts an iterable to a list exactly once).
-/

/-- Model of a CPython `float`: NaN (with an abstract payload distinguishing
different NaN objects/bit patterns), the two infinities, or a finite value
modelled as an exact rational. -/
inductive PFloat where
  | nan (payload : Nat)
  | inf
  | ninf
  | val (q : ℚ)
deriving DecidableEq

/-- Model of the label values handled by the grader: the concrete kinds used in
the test battery plus the module-level `_SENTINEL_NAN = object()` sentinel.
`tuple` and `fset` hold their elements as lists (for `fset`, the list of
elements in insertion order). -/
inductive Label where
  | int (n : Int)
  | bool (b : Bool)
  | str (s : String)
  | float (f : PFloat)
  | tuple (xs : List Label)
  | fset (xs : List Label)
  | sentinel

/- Structural sameness of modelled values.  It stands in for CPython object
identity (`is`): identical objects are structurally identical in the model.
Used for the identity fast path of `PyObject_RichCompareBool`. -/
mutual
def structEq (a b : Label) : Bool :=
  match a, b with
  | .int n, .int m => n == m
  | .bool x, .bool y => x == y
  | .str s, .str t => s == t
  | .float f, .float g => decide (f = g)
  | .sentinel, .sentinel => true
  | .tuple xs, .tuple ys => structEqList xs ys
  | .fset xs, .fset ys => structEqList xs ys
  | _, _ => false
termination_by sizeOf a + sizeOf b

def structEqList (xs ys : List Label) : Bool :=
  match xs, ys with
  | [], [] => true
  | x :: xs, y :: ys => structEq x y && structEqList xs ys
  | _, _ => false
termination_by sizeOf xs + sizeOf ys
end

/-- Python `==` on two floats: NaN compares unequal to everything (itself
included); the infinities compare equal only to themselves; finite values
compare by numeric value. -/
def pfloatEq (f g : PFloat) : Bool :=
  match f, g with
  | .val x, .val y => decide (x = y)
  | .inf, .inf => true
  | .ninf, .ninf => true
  | _, _ => false

/-- Numeric value of a Python `bool` (`True == 1`, `False == 0`). -/
def boolVal (b : Bool) : Int := if b then 1 else 0

/- Python `==` on labels (`pyEq`), together with the container helpers:
`pyIdEqList` compares two element lists pairwise the way CPython compares
tuple/list contents (identity fast path, then `==`); `pyMem`/`pySubset` model
membership and inclusion for frozenset equality (CPython set lookup also uses
the identity-then-`==` test).  Cross-kind numeric equality (`True == 1`,
`1 == 1.0`) is included; NaN is unequal to everything; the sentinel, being a
plain `object()`, is equal only to itself. -/
mutual
def pyEq (a b : Label) : Bool :=
  match a, b with
  | .int n, .int m => n == m
  | .int n, .bool y => n == boolVal y
  | .bool x, .int m => boolVal x == m
  | .bool x, .bool y => x == y
  | .int n, .float g => pfloatEq (.val (n : ℚ)) g
  | .float f, .int m => pfloatEq f (.val (m : ℚ))
  | .bool x, .float g => pfloatEq (.val ((boolVal x : Int) : ℚ)) g
  | .float f, .bool y => pfloatEq f (.val ((boolVal y : Int) : ℚ))
  | .float f, .float g => pfloatEq f g
  | .str s, .str t => s == t
  | .sentinel, .sentinel => true
  | .tuple xs, .tuple ys => pyIdEqList xs ys
  | .fset xs, .fset ys => pySubset xs ys && pySubset ys xs
  | _, _ => false
termination_by sizeOf a + sizeOf b

def pyIdEqList (xs ys : List Label) : Bool :=
  match xs, ys with
  | [], [] => true
  | x :: xs, y :: ys => (structEq x y || pyEq x y) && pyIdEqList xs ys
  | _, _ => false
termination_by sizeOf xs + sizeOf ys

def pyMem (x : Label) (ys : List Label) : Bool :=
  match ys with
  | [] => false
  | y :: ys => (structEq x y || pyEq x y) || pyMem x ys
termination_by sizeOf x + sizeOf ys

def pySubset (xs ys : List Label) : Bool :=
  match xs with
  | [] => true
  | x :: xs => pyMem x ys && pySubset xs ys
termination_by sizeOf xs + sizeOf ys
end

/-- `PyObject_RichCompareBool(x, y, Py_EQ)`: identity fast path, then `==`. -/
def pyIdEq (x y : Label) : Bool := structEq x y || pyEq x y

/-- Python `==` on two lists of labels: equal lengths and pairwise
identity-or-`==` on elements.  This is what `yt != yt0` uses in `run_case`. -/
def listEqPy (xs ys : List Label) : Bool :=
  xs.length == ys.length && pyIdEqList xs ys

/-- `_is_nan(x)`: `isinstance(x, float) and math.isnan(x)`. -/
def is_nan (x : Label) : Bool :=
  match x with
  | .float (.nan _) => true
  | _ => false

/-- `_normalize_label(x)`: collapse any NaN float to the shared sentinel so
that NaN == NaN; everything else passes through unchanged. -/
def normalize_label (x : Label) : Label :=
  if is_nan x then .sentinel else x

/-- `_materialize(a)`: convert an iterable to a list once.  Sequences are
already lists in the model, so this is the identity. -/
def materialize (a : List Label) : List Label := a

/-- `_frozen_copy_list(x_list)`: `list(x_list)` — a copy holding the same
values. -/
def frozen_copy_list (l : List Label) : List Label := l

/-- Python set construction `set(l)` (up to iteration order): keep the first
occurrence of every equality class, where set lookup tests
identity-then-`==` (`pyIdEq`).  `set(yt) | set(yp)` is `pyDedup (yt ++ yp)`.
The grader additionally sorts the classes by `(str(type(x)), str(x))`; the sort
only fixes enumeration order and is dropped here (the mean computed from the
classes is invariant under permutation). -/
def pyDedup (l : List Label) : List Label :=
  match l with
  | [] => []
  | x :: xs => x :: pyDedup (xs.filter (fun y => !(pyIdEq y x)))
termination_by l.length
decreasing_by
  simp only [List.length_cons]
  exact Nat.lt_succ_of_le (List.length_filter_le _ _)

/-- The ClassSet of two (already normalized) label sequences: the union of
their labels, one representative per Python equality class. -/
def classSetOf (yt yp : List Label) : List Label :=
  pyDedup (yt.map normalize_label ++ yp.map normalize_label)

/-- Kinds of Python exception relevant to the harness.  `isinstance`-matching
against an expected exception class is modelled as kind equality. -/
inductive PyExc where
  | valueError
  | typeError
  | otherError
deriving DecidableEq, BEq

/-- `_macro_f1_ref(y_true, y_pred)`: the reference macro-F1 engine.
Materializes both inputs, raises `ValueError` on a length mismatch, normalizes
every label, forms the class set, accumulates per-class confusion counts and
per-class F1 under the zero-division policy, and returns the unweighted mean
(`0.0` for an empty class set).  Division and the mean are exact rational
arithmetic in the model. -/
def macro_f1_ref (y_true y_pred : List Label) : Except PyExc ℚ :=
  let yt := materialize y_true
  let yp := materialize y_pred
  if yt.length ≠ yp.length then .error .valueError
  else
    let yt := yt.map normalize_label
    let yp := yp.map normalize_label
    let classes := pyDedup (yt ++ yp)
    let f1s := classes.map (fun c =>
      let tp := List.countP (fun ab => pyEq ab.1 c && pyEq ab.2 c) (yt.zip yp)
      let fp := List.countP (fun ab => !(pyEq ab.1 c) && pyEq ab.2 c) (yt.zip yp)
      let fn := List.countP (fun ab => pyEq ab.1 c && !(pyEq ab.2 c)) (yt.zip yp)
      let prec : ℚ := if tp + fp = 0 then 0 else (tp : ℚ) / ((tp : ℚ) + (fp : ℚ))
      let rcl : ℚ := if tp + fn = 0 then 0 else (tp : ℚ) / ((tp : ℚ) + (fn : ℚ))
      if prec + rcl = 0 then 0 else 2 * prec * rcl / (prec + rcl))
    if f1s.isEmpty then .ok 0 else .ok (f1s.sum / (f1s.length : ℚ))

/-- `_approx_equal(a, b, tol=1e-9)`: absolute-difference comparison that
demands both values be finite (`math.isfinite`); any non-finite operand makes
it `False`. -/
def approx_equal (a b : PFloat) (tol : ℚ) : Bool :=
  match a, b with
  | .val x, .val y => decide (|x - y| ≤ tol)
  | _, _ => false

/-- The default tolerance `1e-9` of `_approx_equal`. -/
def tol9 : ℚ := 1 / 1000000000

/-- The epsilon `1e-12` of the output range check in `run_case`. -/
def eps12 : ℚ := 1 / 1000000000000

/-- Python `<=` on floats: comparisons involving NaN are `False`; the
infinities compare as usual. -/
def pfLe (a b : PFloat) : Bool :=
  match a, b with
  | .nan _, _ => false
  | _, .nan _ => false
  | .ninf, _ => true
  | _, .inf => true
  | .inf, _ => false
  | .val _, .ninf => false
  | .val x, .val y => decide (x ≤ y)

/-- A value returned by the candidate `macro_f1`: an int, a bool, a float, or
something non-numeric (anything for which `isinstance(out, (float, int))` is
false — strings, lists, `None`, ...). -/
inductive RetVal where
  | int (n : Int)
  | bool (b : Bool)
  | float (f : PFloat)
  | nonNumeric (tag : String)

/-- `isinstance(out, (float, int))`.  `bool` is a subclass of `int`, so
booleans are numeric. -/
def isNumericVal (v : RetVal) : Bool :=
  match v with
  | .int _ => true
  | .bool _ => true
  | .float _ => true
  | .nonNumeric _ => false

/-- `float(out)` for a value that passed the `isinstance` check.  `True`
converts to `1.0` and `False` to `0.0`.  (Unused on the non-numeric branch;
mapped to NaN there for totality.) -/
def toFloatVal (v : RetVal) : PFloat :=
  match v with
  | .int n => .val (n : ℚ)
  | .bool b => .val ((boolVal b : Int) : ℚ)
  | .float f => f
  | .nonNumeric _ => .nan 0

/-- The range check `0.0 - 1e-12 <= out <= 1.0 + 1e-12` of `run_case`. -/
def inUnitRange (o : PFloat) : Bool :=
  pfLe (.val (0 - eps12)) o && pfLe o (.val (1 + eps12))

/-- What one invocation of the candidate did: either it raised an exception of
some kind or it returned a value; and the state its two input lists were left
in after the call (the candidate may have mutated them in place). -/
structure CandBehavior where
  result : Except PyExc RetVal
  postTrue : List Label
  postPred : List Label

/-- The per-case verdict of `run_case`, one constructor per distinct outcome
message printed by the grader. -/
inductive Verdict where
  | pass
  | failExpectedException
  | failUnexpectedException
  | failNonNumeric
  | failOutOfRange
  | failValueMismatch
  | failMutatedTrue
  | failMutatedPred
deriving DecidableEq, BEq

/-- The static part of the message `run_case` prints for each verdict. -/
def verdictMsg (v : Verdict) : String :=
  match v with
  | .pass => "PASS"
  | .failExpectedException => "expected exception, but none was raised"
  | .failUnexpectedException => "unexpected exception"
  | .failNonNumeric => "output must be a float (or int convertible)"
  | .failOutOfRange => "output not in [0, 1]"
  | .failValueMismatch => "value mismatch"
  | .failMutatedTrue => "y_true was mutated"
  | .failMutatedPred => "y_pred was mutated"

/-- `run_case(name, y_true, y_pred, expect=None, expect_exception=None)`.
Materializes the inputs once, snapshots them, invokes the candidate (whose
behaviour on this call is `cand`), and applies, in the grader's order: the
expected-exception check, the numeric-type check, the range check, the
comparison against the literal `expect` (when given) or the reference engine's
result, and finally the mutation check against the snapshots.  The reference
`_macro_f1_ref(yt, yp)` is computed on the very list objects that were passed
to the candidate, hence on their *post-call* state — `cand.postTrue` /
`cand.postPred` — which matters when the candidate mutated them in place; the
snapshots `yt0`/`yp0` keep the pre-call values.  When `expect` is `None` and
the reference engine itself raises, that exception propagates out of
`run_case` uncaught (`Except.error`). -/
def run_case (name : String) (y_true y_pred : List Label)
    (expect : Option ℚ) (expect_exception : Option PyExc)
    (cand : CandBehavior) : Except PyExc Verdict :=
  let _ := name
  let yt := materialize y_true
  let yp := materialize y_pred
  let yt0 := frozen_copy_list yt
  let yp0 := frozen_copy_list yp
  match cand.result with
  | .error e =>
    match expect_exception with
    | some k => if e == k then .ok .pass else .ok .failUnexpectedException
    | none => .ok .failUnexpectedException
  | .ok out =>
    if expect_exception.isSome then .ok .failExpectedException
    else if !(isNumericVal out) then .ok .failNonNumeric
    else
      let o := toFloatVal out
      if !(inUnitRange o) then .ok .failOutOfRange
      else
        match (match expect with
               | some e => Except.ok e
               | none => macro_f1_ref cand.postTrue cand.postPred) with
        | .error exc => .error exc
        | .ok ref =>
          if !(approx_equal o (.val ref) tol9) then .ok .failValueMismatch
          else if !(listEqPy cand.postTrue yt0) then .ok .failMutatedTrue
          else if !(listEqPy cand.postPred yp0) then .ok .failMutatedPred
          else .ok .pass

/-- Outcome of `inspect.getsource` + `ast` parsing of the candidate function:
either it succeeded and the function's docstring is `docstring`
(`ast.get_docstring`, `None` when absent), or it raised. -/
inductive InspectResult where
  | ok (docstring : Option String)
  | raises

/-- Python whitespace, as stripped by `str.strip()`. -/
def isPySpace (c : Char) : Bool :=
  c = ' ' || c = '\t' || c = '\n' || c = '\r' || c = '\x0b' || c = '\x0c'

/-- `_has_docstring`: `ast.get_docstring(fn) is not None and
len(ast.get_docstring(fn).strip()) > 0` — the docstring exists and holds at
least one non-whitespace character. -/
def docstring_ok (ds : Option String) : Bool :=
  match ds with
  | none => false
  | some s => s.toList.any (fun c => !(isPySpace c))

/-- Verdict of the module-level style check: proceed to the battery, or exit
with one of its distinct failure messages. -/
inductive StyleVerdict where
  | proceed
  | failDocstring
  | failInspect
  | failNestedImport
deriving DecidableEq, BEq

/-- The module-level style-check block of the grader.  The `try` body checks
the docstring and exits on failure; its first `except` handler prints a
diagnostic and calls `sys.exit(1)`, and only *after* that unconditional exit
does the handler's text go on to run the regex-based nested-`import` scan
(modelled inside the `Except` monad: `sys.exit` throws, the statements that
follow it are the dead remainder of the handler).  The duplicate second
`except Exception` clause of the source can never fire and adds nothing. -/
def style_check_block (insp : InspectResult) (body_has_nested_import : Bool) :
    StyleVerdict :=
  match insp with
  | .ok ds => if docstring_ok ds then .proceed else .failDocstring
  | .raises =>
    match (do
      let _ ← (Except.error StyleVerdict.failInspect : Except StyleVerdict Unit)
      if body_has_nested_import then
        Except.error StyleVerdict.failNestedImport
      else
        Except.ok ()) with
    | .error v => v
    | .ok _ => .proceed

/-- One entry of the fixed test battery: name, the two (materialized) label
sequences, the optional literal expected value, the optional expected-exception
kind. -/
structure TestCase where
  name : String
  y_true : List Label
  y_pred : List Label
  expect : Option ℚ
  expect_exception : Option PyExc

/-- Shorthand for integer labels. -/
def iL (n : Int) : Label := .int n

/-- Shorthand for string labels. -/
def sL (s : String) : Label := .str s

/-- The single `nan = float("nan")` object that `main` reuses in the
`nan_as_label` case (one object, hence one payload). -/
def nanL : Label := .float (.nan 0)

/-- The fixed, ordered test battery of `main()`.  Numpy integer arrays
materialize to integer labels; the two generator cases materialize to the
lists they yield. -/
def battery : List TestCase :=
  [ ⟨"balanced_3class", [sL "A", sL "A", sL "B", sL "B", sL "C", sL "C"],
      [sL "A", sL "B", sL "B", sL "B", sL "C", sL "A"], none, none⟩,
    ⟨"no_pred_for_class", [iL 0, iL 0, iL 1, iL 1, iL 1, iL 2, iL 2],
      [iL 0, iL 0, iL 1, iL 1, iL 1, iL 0, iL 0], none, none⟩,
    ⟨"class_absent_in_truth", [iL 0, iL 0, iL 1, iL 1, iL 1, iL 0, iL 0],
      [iL 0, iL 0, iL 1, iL 1, iL 1, iL 2, iL 2], none, none⟩,
    ⟨"gapped_labels", [iL 0, iL 0, iL 2, iL 2, iL 5, iL 5, iL 5],
      [iL 0, iL 2, iL 2, iL 5, iL 5, iL 5, iL 0], none, none⟩,
    ⟨"string_labels_unseen_pred", [sL "dog", sL "dog", sL "cat", sL "cat", sL "mouse"],
      [sL "dog", sL "cat", sL "cat", sL "mouse", sL "unicorn"], none, none⟩,
    ⟨"numpy_arrays", [iL 1, iL 1, iL 2, iL 2, iL 3, iL 3],
      [iL 1, iL 2, iL 2, iL 3, iL 3, iL 1], none, none⟩,
    ⟨"perfect", [sL "x", sL "y", sL "z", sL "x", sL "y", sL "z"],
      [sL "x", sL "y", sL "z", sL "x", sL "y", sL "z"], some 1, none⟩,
    ⟨"all_wrong", [iL 0, iL 1, iL 2], [iL 1, iL 2, iL 0], none, none⟩,
    ⟨"length_mismatch", [iL 0, iL 1, iL 2], [iL 0, iL 1], none, some .valueError⟩,
    ⟨"nan_as_label", [nanL, sL "a", sL "a", nanL, sL "b"],
      [nanL, sL "a", nanL, sL "x", sL "b"], none, none⟩,
    ⟨"extreme_imbalance", List.replicate 98 (iL 0) ++ List.replicate 2 (iL 1),
      List.replicate 99 (iL 0) ++ List.replicate 1 (iL 1), none, none⟩,
    ⟨"composite_labels",
      [.tuple [sL "A", iL 1], .tuple [sL "A", iL 2], sL "B", sL "B", .fset [iL 1, iL 2]],
      [.tuple [sL "A", iL 1], sL "B", sL "B", .fset [iL 2, iL 1], .tuple [sL "X", iL 9]],
      none, none⟩,
    ⟨"generator_inputs", [sL "a", sL "b", sL "a", sL "c"],
      [sL "a", sL "a", sL "c", sL "c"], none, none⟩ ]

/-- The state of the world the module-level setup code observes: whether numpy
imports, whether `starter/solution.py` exists, whether executing it raises,
whether it defines `macro_f1`, what inspecting that function yields, and
whether its body textually contains a nested import statement. -/
structure SetupState where
  numpy_available : Bool
  solution_exists : Bool
  load_raises : Bool
  has_macro_f1 : Bool
  inspect : InspectResult
  body_has_nested_import : Bool

/-- The module-level setup sequence of the grader, in source order: numpy
import, solution-file existence, module execution, `macro_f1` presence, then
the style-check block.  `some 1` models `sys.exit(1)` (with its distinct
message); `none` means setup completed and the battery will run. -/
def setup_exit (s : SetupState) : Option Nat :=
  if !s.numpy_available then some 1
  else if !s.solution_exists then some 1
  else if s.load_raises then some 1
  else if !s.has_macro_f1 then some 1
  else
    match style_check_block s.inspect s.body_has_nested_import with
    | .proceed => none
    | _ => some 1

/-- `all_ok &= run_case(...)` for a list of cases: every case runs in order
(a case failure does not stop the battery) unless an uncaught exception
escapes `run_case`, which aborts the process at that point. -/
def run_cases_list (cases : List TestCase) (cand : TestCase → CandBehavior) :
    Except PyExc (List Verdict) :=
  match cases with
  | [] => .ok []
  | tc :: rest =>
    match run_case tc.name tc.y_true tc.y_pred tc.expect tc.expect_exception (cand tc) with
    | .error e => .error e
    | .ok v =>
      match run_cases_list rest cand with
      | .error e => .error e
      | .ok vs => .ok (v :: vs)

/-- Process exit code of one grader run: a setup failure exits 1 before any
case; otherwise `main()` runs the whole battery and exits 0 iff `all_ok`
remained true (an uncaught exception also terminates with a nonzero status).
`cand tc` is how the candidate behaves when called on case `tc`. -/
def grade_exit (s : SetupState) (cand : TestCase → CandBehavior) : Nat :=
  match setup_exit s with
  | some c => c
  | none =>
    match run_cases_list battery cand with
    | .error _ => 1
    | .ok vs => if vs.all (fun v => v == Verdict.pass) then 0 else 1

/-- The verdicts of the cases that actually executed in one grader run: none
when setup failed (it short-circuits before the battery). -/
def grade_verdicts (s : SetupState) (cand : TestCase → CandBehavior) : List Verdict :=
  match setup_exit s with
  | some _ => []
  | none =>
    match run_cases_list battery cand with
    | .error _ => []
    | .ok vs => vs

/-- Per-class true positives of the spec (§4.2 step 5):
`tp = count(truth==c AND pred==c)` over the full pair sequence. -/
def tp_count (yt yp : List Label) (c : Label) : ℕ :=
  List.countP (fun ab => pyEq ab.1 c && pyEq ab.2 c) (yt.zip yp)

/-- Per-class false positives: `fp = count(truth!=c AND pred==c)`. -/
def fp_count (yt yp : List Label) (c : Label) : ℕ :=
  List.countP (fun ab => !(pyEq ab.1 c) && pyEq ab.2 c) (yt.zip yp)

/-- Per-class false negatives: `fn = count(truth==c AND pred!=c)`. -/
def fn_count (yt yp : List Label) (c : Label) : ℕ :=
  List.countP (fun ab => pyEq ab.1 c && !(pyEq ab.2 c)) (yt.zip yp)

/-- The spec's zero-division policy for precision:
`precision = 0.0 if (tp+fp)==0 else tp/(tp+fp)`. -/
def precision_policy (tp fp : ℕ) : ℚ :=
  if tp + fp = 0 then 0 else (tp : ℚ) / ((tp : ℚ) + (fp : ℚ))

/-- The spec's zero-division policy for recall:
`recall = 0.0 if (tp+fn)==0 else tp/(tp+fn)`. -/
def recall_policy (tp fn : ℕ) : ℚ :=
  if tp + fn = 0 then 0 else (tp : ℚ) / ((tp : ℚ) + (fn : ℚ))

/-- The spec's zero-division policy for the per-class F1:
`f1 = 0.0 if (precision+recall)==0 else 2·precision·recall/(precision+recall)`. -/
def f1_policy (prec rcl : ℚ) : ℚ :=
  if prec + rcl = 0 then 0 else 2 * prec * rcl / (prec + rcl)

/-- Per-class F1 of the spec, composed from the policy pieces. -/
def class_f1 (yt yp : List Label) (c : Label) : ℚ :=
  f1_policy (precision_policy (tp_count yt yp c) (fp_count yt yp c))
            (recall_policy (tp_count yt yp c) (fn_count yt yp c))

/-- The spec's description of the whole reference computation on equal-length
inputs (§4.2 steps 2–7): normalize, form the ClassSet, return `0.0` when it is
empty, else the unweighted mean of the per-class F1 values. -/
def macro_policy (y_true y_pred : List Label) : ℚ :=
  let yt := y_true.map normalize_label
  let yp := y_pred.map normalize_label
  let classes := classSetOf y_true y_pred
  if classes.isEmpty then 0
  else (classes.map (class_f1 yt yp)).sum / (classes.length : ℚ)

/- ------------------------------------------------------------------ -/
/- Helper lemmas                                                      -/
/- ------------------------------------------------------------------ -/

mutual
theorem structEq_refl (x : Label) : structEq x x = true := by
  cases x with
  | int n => simp [structEq]
  | bool b => simp [structEq]
  | str s => simp [structEq]
  | float f => simp [structEq]
  | sentinel => simp [structEq]
  | tuple xs => simpa [structEq] using structEqList_refl xs
  | fset xs => simpa [structEq] using structEqList_refl xs
termination_by sizeOf x

theorem structEqList_refl (xs : List Label) : structEqList xs xs = true := by
  cases xs with
  | nil => simp [structEqList]
  | cons x xs =>
    simp only [structEqList, Bool.and_eq_true]
    exact ⟨structEq_refl x, structEqList_refl xs⟩
termination_by sizeOf xs
end

theorem pyIdEq_refl (x : Label) : pyIdEq x x = true := by
  simp [pyIdEq, structEq_refl]

theorem pyIdEqList_refl (xs : List Label) : pyIdEqList xs xs = true := by
  induction xs with
  | nil => simp [pyIdEqList]
  | cons x xs ih => simp [pyIdEqList, structEq_refl, ih]

theorem listEqPy_refl (xs : List Label) : listEqPy xs xs = true := by
  simp [listEqPy, pyIdEqList_refl]

theorem pyMem_of_mem {x : Label} {ys : List Label} (h : x ∈ ys) : pyMem x ys = true := by
  induction ys with
  | nil => cases h
  | cons y ys ih =>
    rcases List.mem_cons.mp h with h | h
    · subst h
      simp [pyMem, structEq_refl]
    · simp [pyMem, ih h]

theorem pySubset_self (xs : List Label) : pySubset xs xs = true := by
  have general : ∀ (us vs : List Label), (∀ u ∈ us, u ∈ vs) → pySubset us vs = true := by
    intro us
    induction us with
    | nil => intro vs _; simp [pySubset]
    | cons u us ih =>
      intro vs h
      simp only [pySubset, Bool.and_eq_true]
      exact ⟨pyMem_of_mem (h u (by simp)), ih vs (fun w hw => h w (by simp [hw]))⟩
  exact general xs xs (fun u hu => hu)

/-- A label is "clean" when it is not itself a bare NaN float (its interior
may still hold NaN).  Every output of `normalize_label` is clean. -/
def cleanLabel (x : Label) : Prop := ∀ p : Nat, x ≠ .float (.nan p)

theorem normalize_label_clean (x : Label) : cleanLabel (normalize_label x) := by
  intro p
  unfold normalize_label
  split
  · simp
  · intro hx
    subst hx
    simp [is_nan] at *

/-- Python `==` is reflexive on every clean label: after normalization every
label compares equal to itself (the point of the NaN sentinel). -/
theorem pyEq_refl_of_clean (x : Label) (h : cleanLabel x) : pyEq x x = true := by
  cases x with
  | int n => simp [pyEq]
  | bool b => simp [pyEq]
  | str s => simp [pyEq]
  | sentinel => simp [pyEq]
  | float f =>
    cases f with
    | nan p => exact absurd rfl (h p)
    | inf => simp [pyEq, pfloatEq]
    | ninf => simp [pyEq, pfloatEq]
    | val q => simp [pyEq, pfloatEq]
  | tuple xs => simp [pyEq, pyIdEqList_refl]
  | fset xs => simp [pyEq, pySubset_self]

theorem mem_of_mem_pyDedup : ∀ {l : List Label} {x : Label}, x ∈ pyDedup l → x ∈ l := by
  intro l
  induction l using pyDedup.induct with
  | case1 => intro x h; simp [pyDedup] at h
  | case2 y ys ih =>
    intro x h
    rw [pyDedup] at h
    rcases List.mem_cons.mp h with h | h
    · simp [h]
    · exact List.mem_cons_of_mem y (List.mem_of_mem_filter (ih h))

/-- Two distinct members of a Python set never compare equal: the set keeps a
single representative of every equality class. -/
theorem pyDedup_separates :
    ∀ {l : List Label} {u v : Label}, u ∈ pyDedup l → v ∈ pyDedup l →
      pyIdEq u v = true → pyIdEq v u = true → u = v := by
  intro l
  induction l using pyDedup.induct with
  | case1 => intro u v hu _ _ _; simp [pyDedup] at hu
  | case2 y ys ih =>
    intro u v hu hv huv hvu
    rw [pyDedup] at hu hv
    rcases List.mem_cons.mp hu with hu | hu <;> rcases List.mem_cons.mp hv with hv | hv
    · rw [hu, hv]
    · exfalso
      have hvf := List.mem_filter.mp (mem_of_mem_pyDedup hv)
      rw [hu] at hvu
      simp [hvu] at hvf
    · exfalso
      have huf := List.mem_filter.mp (mem_of_mem_pyDedup hu)
      rw [hv] at huv
      simp [huv] at huf
    · exact ih hu hv huv hvu

/- Equivalence properties of Python equality.  `run_case` computes the
`expect=None` reference on the post-call lists; showing that an unmutated run
(post-call lists Python-equal to the originals) yields the same reference
value needs `pyEq` to behave like an equivalence on the values on which it
holds: symmetry, transitivity, and congruence of the engine. -/

mutual
theorem structEq_sound (a b : Label) (h : structEq a b = true) : a = b := by
  cases a <;> cases b <;> simp_all [structEq]
  case tuple.tuple xs ys => exact structEqList_sound xs ys h
  case fset.fset xs ys => exact structEqList_sound xs ys h
termination_by sizeOf a + sizeOf b

theorem structEqList_sound (xs ys : List Label) (h : structEqList xs ys = true) :
    xs = ys := by
  cases xs with
  | nil => cases ys with
    | nil => rfl
    | cons y ys => simp [structEqList] at h
  | cons x xs =>
    cases ys with
    | nil => simp [structEqList] at h
    | cons y ys =>
      simp only [structEqList, Bool.and_eq_true] at h
      rw [structEq_sound x y h.1, structEqList_sound xs ys h.2]
termination_by sizeOf xs + sizeOf ys
end

theorem structEq_symm (a b : Label) : structEq a b = structEq b a := by
  cases h1 : structEq a b with
  | true => rw [structEq_sound a b h1, structEq_refl]
  | false =>
    cases h2 : structEq b a with
    | true =>
      rw [structEq_sound b a h2, structEq_refl] at h1
      exact h1.symm
    | false => rfl

theorem lawful_beq_comm {A : Type} [BEq A] [LawfulBEq A] (a b : A) :
    (a == b) = (b == a) := by
  by_cases h : a = b
  · subst h
    rfl
  · rw [beq_eq_false_iff_ne.mpr h, beq_eq_false_iff_ne.mpr (Ne.symm h)]

theorem pfloatEq_symm (f g : PFloat) : pfloatEq f g = pfloatEq g f := by
  cases f <;> cases g <;> simp [pfloatEq, eq_comm]

theorem pfloatEq_trans (f g h : PFloat) (h1 : pfloatEq f g = true)
    (h2 : pfloatEq g h = true) : pfloatEq f h = true := by
  cases f <;> cases g <;> cases h <;> simp_all [pfloatEq]

/-- Python `==` never holds of a bare NaN float, on either side. -/
theorem pyEq_nan_left (p : Nat) (y : Label) : pyEq (.float (.nan p)) y = false := by
  cases y <;> simp [pyEq, pfloatEq]

theorem pyEq_nan_right (p : Nat) (x : Label) : pyEq x (.float (.nan p)) = false := by
  cases x <;> simp [pyEq, pfloatEq]

/-- A label that fails to equal itself under Python `==` is a bare NaN. -/
theorem bare_nan_of_not_pyEq_self {x : Label} (h : pyEq x x = false) :
    ∃ p, x = .float (.nan p) := by
  by_contra hno
  push_neg at hno
  have : cleanLabel x := fun p hp => hno p hp
  rw [pyEq_refl_of_clean x this] at h
  cases h

mutual
theorem pyEq_symm (a b : Label) : pyEq a b = pyEq b a := by
  cases a <;> cases b <;> simp only [pyEq] <;>
    first
      | rfl
      | apply lawful_beq_comm
      | apply pfloatEq_symm
      | apply Bool.and_comm
      | skip
  case tuple.tuple xs ys => exact pyIdEqList_symm xs ys
termination_by sizeOf a + sizeOf b

theorem pyIdEqList_symm (xs ys : List Label) : pyIdEqList xs ys = pyIdEqList ys xs := by
  cases xs with
  | nil => cases ys <;> simp [pyIdEqList]
  | cons x xs =>
    cases ys with
    | nil => simp [pyIdEqList]
    | cons y ys =>
      simp only [pyIdEqList]
      rw [structEq_symm x y, pyEq_symm x y, pyIdEqList_symm xs ys]
termination_by sizeOf xs + sizeOf ys
end

/-- Model of `numpy`-free numeric comparison: the float key of a numeric label
(int, bool, or float); `none` for non-numeric labels.  Python `==` on numeric
labels is exactly float equality of their keys. -/
def numKey : Label → Option PFloat
  | .int n => some (.val (n : ℚ))
  | .bool b => some (.val ((boolVal b : Int) : ℚ))
  | .float f => some f
  | _ => none

theorem int_beq_cast (n m : Int) : (n == m) = decide ((n : ℚ) = (m : ℚ)) := by
  by_cases h : n = m
  · subst h
    simp
  · rw [beq_eq_false_iff_ne.mpr h]
    simp [Int.cast_inj, h]

theorem bool_beq_cast (x y : Bool) :
    (x == y) = decide (((boolVal x : Int) : ℚ) = ((boolVal y : Int) : ℚ)) := by
  cases x <;> cases y <;> simp [boolVal]

theorem pyEq_eq_pfloatEq {x y : Label} {fx fy : PFloat}
    (hx : numKey x = some fx) (hy : numKey y = some fy) :
    pyEq x y = pfloatEq fx fy := by
  cases x with
  | int n =>
    simp only [numKey, Option.some.injEq] at hx
    subst hx
    cases y with
    | int m =>
      simp only [numKey, Option.some.injEq] at hy
      subst hy
      simp only [pyEq, pfloatEq]
      exact int_beq_cast n m
    | bool b =>
      simp only [numKey, Option.some.injEq] at hy
      subst hy
      simp only [pyEq, pfloatEq]
      exact int_beq_cast n (boolVal b)
    | float f =>
      simp only [numKey, Option.some.injEq] at hy
      subst hy
      simp only [pyEq]
    | str s => simp [numKey] at hy
    | tuple t => simp [numKey] at hy
    | fset t => simp [numKey] at hy
    | sentinel => simp [numKey] at hy
  | bool b =>
    simp only [numKey, Option.some.injEq] at hx
    subst hx
    cases y with
    | int m =>
      simp only [numKey, Option.some.injEq] at hy
      subst hy
      simp only [pyEq, pfloatEq]
      exact int_beq_cast (boolVal b) m
    | bool c =>
      simp only [numKey, Option.some.injEq] at hy
      subst hy
      simp only [pyEq, pfloatEq]
      exact bool_beq_cast b c
    | float f =>
      simp only [numKey, Option.some.injEq] at hy
      subst hy
      simp only [pyEq]
    | str s => simp [numKey] at hy
    | tuple t => simp [numKey] at hy
    | fset t => simp [numKey] at hy
    | sentinel => simp [numKey] at hy
  | float f =>
    simp only [numKey, Option.some.injEq] at hx
    subst hx
    cases y with
    | int m =>
      simp only [numKey, Option.some.injEq] at hy
      subst hy
      simp only [pyEq]
    | bool c =>
      simp only [numKey, Option.some.injEq] at hy
      subst hy
      simp only [pyEq]
    | float g =>
      simp only [numKey, Option.some.injEq] at hy
      subst hy
      simp only [pyEq]
    | str s => simp [numKey] at hy
    | tuple t => simp [numKey] at hy
    | fset t => simp [numKey] at hy
    | sentinel => simp [numKey] at hy
  | str s => simp [numKey] at hx
  | tuple t => simp [numKey] at hx
  | fset t => simp [numKey] at hx
  | sentinel => simp [numKey] at hx

theorem pyEq_numKey_inv {x y : Label} {fx : PFloat} (hx : numKey x = some fx)
    (h : pyEq x y = true) : ∃ fy, numKey y = some fy := by
  cases x <;> cases y <;> simp_all [numKey, pyEq]

theorem pyEq_str_inv {s : String} {y : Label} (h : pyEq (.str s) y = true) :
    y = .str s := by
  cases y <;> simp_all [pyEq]

theorem pyEq_sentinel_inv {y : Label} (h : pyEq .sentinel y = true) :
    y = .sentinel := by
  cases y <;> simp_all [pyEq]

theorem pyEq_tuple_inv {xs : List Label} {y : Label}
    (h : pyEq (.tuple xs) y = true) :
    ∃ ys, y = .tuple ys ∧ pyIdEqList xs ys = true := by
  cases y with
  | tuple ys =>
    refine ⟨ys, rfl, ?_⟩
    simpa [pyEq] using h
  | int n => simp [pyEq] at h
  | bool b => simp [pyEq] at h
  | str s => simp [pyEq] at h
  | float f => simp [pyEq] at h
  | fset zs => simp [pyEq] at h
  | sentinel => simp [pyEq] at h

theorem pyEq_fset_inv {xs : List Label} {y : Label}
    (h : pyEq (.fset xs) y = true) :
    ∃ ys, y = .fset ys ∧ pySubset xs ys = true ∧ pySubset ys xs = true := by
  cases y with
  | fset ys =>
    refine ⟨ys, rfl, ?_⟩
    simpa [pyEq, Bool.and_eq_true] using h
  | int n => simp [pyEq] at h
  | bool b => simp [pyEq] at h
  | str s => simp [pyEq] at h
  | float f => simp [pyEq] at h
  | tuple zs => simp [pyEq] at h
  | sentinel => simp [pyEq] at h

theorem pyMem_iff {x : Label} {ys : List Label} :
    pyMem x ys = true ↔ ∃ y ∈ ys, pyIdEq x y = true := by
  induction ys with
  | nil => simp [pyMem]
  | cons y ys ih =>
    simp only [pyMem, Bool.or_eq_true, ih, pyIdEq, List.mem_cons]
    constructor
    · rintro (h | ⟨z, hz, h⟩)
      · exact ⟨y, Or.inl rfl, h⟩
      · exact ⟨z, Or.inr hz, h⟩
    · rintro ⟨z, hz | hz, h⟩
      · subst hz
        exact Or.inl h
      · exact Or.inr ⟨z, hz, h⟩

theorem pySubset_iff {xs ys : List Label} :
    pySubset xs ys = true ↔ ∀ x ∈ xs, pyMem x ys = true := by
  induction xs with
  | nil => simp [pySubset]
  | cons x xs ih =>
    simp only [pySubset, Bool.and_eq_true, ih, List.mem_cons]
    constructor
    · rintro ⟨h1, h2⟩ z (hz | hz)
      · subst hz
        exact h1
      · exact h2 z hz
    · intro h
      exact ⟨h x (Or.inl rfl), fun z hz => h z (Or.inr hz)⟩

/- Transitivity of Python equality on the values where it holds, proven by
strong induction on combined size: the `Prop` pair handles labels and element
lists together. -/
theorem pyEq_trans_bounded :
    ∀ n : Nat,
      (∀ x y z : Label, sizeOf x + sizeOf y + sizeOf z ≤ n →
        pyEq x y = true → pyEq y z = true → pyEq x z = true) ∧
      (∀ xs ys zs : List Label, sizeOf xs + sizeOf ys + sizeOf zs ≤ n →
        pyIdEqList xs ys = true → pyIdEqList ys zs = true →
          pyIdEqList xs zs = true) := by
  intro n
  induction n using Nat.strong_induction_on with
  | _ n ih =>
    have idTrans : ∀ a b c : Label, sizeOf a + sizeOf b + sizeOf c < n →
        pyIdEq a b = true → pyIdEq b c = true → pyIdEq a c = true := by
      intro a b c hlt hab hbc
      simp only [pyIdEq, Bool.or_eq_true] at hab hbc ⊢
      rcases hab with hs | hp
      · rw [structEq_sound _ _ hs]
        exact hbc
      · rcases hbc with hs2 | hp2
        · rw [← structEq_sound _ _ hs2]
          right
          exact hp
        · right
          exact (ih _ hlt).1 a b c (le_refl _) hp hp2
    constructor
    · intro x y z hsize hxy hyz
      cases hnk : numKey x with
      | some fx =>
        obtain ⟨fy, hfy⟩ := pyEq_numKey_inv hnk hxy
        obtain ⟨fz, hfz⟩ := pyEq_numKey_inv hfy hyz
        rw [pyEq_eq_pfloatEq hnk hfy] at hxy
        rw [pyEq_eq_pfloatEq hfy hfz] at hyz
        rw [pyEq_eq_pfloatEq hnk hfz]
        exact pfloatEq_trans _ _ _ hxy hyz
      | none =>
        cases x with
        | int m => simp [numKey] at hnk
        | bool b => simp [numKey] at hnk
        | float f => simp [numKey] at hnk
        | str s =>
          rw [pyEq_str_inv hxy] at hyz
          rw [pyEq_str_inv hyz]
          simp [pyEq]
        | sentinel =>
          rw [pyEq_sentinel_inv hxy] at hyz
          rw [pyEq_sentinel_inv hyz]
          simp [pyEq]
        | tuple xs =>
          obtain ⟨ys, rfl, hl1⟩ := pyEq_tuple_inv hxy
          obtain ⟨zs, rfl, hl2⟩ := pyEq_tuple_inv hyz
          simp only [pyEq]
          have e1 : sizeOf (Label.tuple xs) = 1 + sizeOf xs := by simp
          have e2 : sizeOf (Label.tuple ys) = 1 + sizeOf ys := by simp
          have e3 : sizeOf (Label.tuple zs) = 1 + sizeOf zs := by simp
          have hlt : sizeOf xs + sizeOf ys + sizeOf zs < n := by omega
          exact (ih _ hlt).2 xs ys zs (le_refl _) hl1 hl2
        | fset xs =>
          obtain ⟨ys, rfl, hs1, hs1x⟩ := pyEq_fset_inv hxy
          obtain ⟨zs, rfl, hs2, hs2x⟩ := pyEq_fset_inv hyz
          simp only [pyEq, Bool.and_eq_true]
          have e1 : sizeOf (Label.fset xs) = 1 + sizeOf xs := by simp
          have e2 : sizeOf (Label.fset ys) = 1 + sizeOf ys := by simp
          have e3 : sizeOf (Label.fset zs) = 1 + sizeOf zs := by simp
          have hsub : ∀ as bs cs : List Label,
              sizeOf as + sizeOf bs + sizeOf cs ≤ sizeOf xs + sizeOf ys + sizeOf zs →
              pySubset as bs = true → pySubset bs cs = true →
                pySubset as cs = true := by
            intro as bs cs hle h1 h2
            rw [pySubset_iff] at h1 h2 ⊢
            intro a ha
            obtain ⟨b, hb, hab⟩ := pyMem_iff.mp (h1 a ha)
            obtain ⟨c, hc, hbc⟩ := pyMem_iff.mp (h2 b hb)
            have hma := List.sizeOf_lt_of_mem ha
            have hmb := List.sizeOf_lt_of_mem hb
            have hmc := List.sizeOf_lt_of_mem hc
            exact pyMem_iff.mpr ⟨c, hc, idTrans a b c (by omega) hab hbc⟩
          exact ⟨hsub xs ys zs (by omega) hs1 hs2,
            hsub zs ys xs (by omega) hs2x hs1x⟩
    · intro xs ys zs hsize h1 h2
      cases xs with
      | nil =>
        cases ys with
        | nil => exact h2
        | cons y ys => simp [pyIdEqList] at h1
      | cons x xs =>
        cases ys with
        | nil => simp [pyIdEqList] at h1
        | cons y ys =>
          cases zs with
          | nil => simp [pyIdEqList] at h2
          | cons z zs =>
            simp only [pyIdEqList, Bool.and_eq_true] at h1 h2 ⊢
            have e1 : sizeOf (x :: xs) = 1 + sizeOf x + sizeOf xs := by simp
            have e2 : sizeOf (y :: ys) = 1 + sizeOf y + sizeOf ys := by simp
            have e3 : sizeOf (z :: zs) = 1 + sizeOf z + sizeOf zs := by simp
            refine ⟨?_, (ih _ (show sizeOf xs + sizeOf ys + sizeOf zs < n by omega)).2
              xs ys zs (le_refl _) h1.2 h2.2⟩
            simp only [pyIdEq, Bool.or_eq_true] at h1 h2 ⊢
            rcases h1.1 with hs | hp
            · rw [structEq_sound _ _ hs]
              exact h2.1
            · rcases h2.1 with hs2 | hp2
              · rw [← structEq_sound _ _ hs2]
                right
                exact hp
              · right
                exact (ih _ (show sizeOf x + sizeOf y + sizeOf z < n by omega)).1
                  x y z (le_refl _) hp hp2

theorem pyEq_trans (x y z : Label) (hxy : pyEq x y = true)
    (hyz : pyEq y z = true) : pyEq x z = true :=
  (pyEq_trans_bounded (sizeOf x + sizeOf y + sizeOf z)).1 x y z (le_refl _) hxy hyz

theorem pyIdEqList_trans (xs ys zs : List Label) (h1 : pyIdEqList xs ys = true)
    (h2 : pyIdEqList ys zs = true) : pyIdEqList xs zs = true :=
  (pyEq_trans_bounded (sizeOf xs + sizeOf ys + sizeOf zs)).2 xs ys zs (le_refl _) h1 h2

theorem pyIdEq_trans (x y z : Label) (hxy : pyIdEq x y = true)
    (hyz : pyIdEq y z = true) : pyIdEq x z = true := by
  simp only [pyIdEq, Bool.or_eq_true] at hxy hyz ⊢
  rcases hxy with h1 | h1
  · rw [structEq_sound x y h1]
    exact hyz
  · rcases hyz with h2 | h2
    · rw [← structEq_sound y z h2]
      right
      exact h1
    · right
      exact pyEq_trans x y z h1 h2

theorem pySubset_trans (xs ys zs : List Label) (h1 : pySubset xs ys = true)
    (h2 : pySubset ys zs = true) : pySubset xs zs = true := by
  rw [pySubset_iff] at h1 h2 ⊢
  intro x hx
  obtain ⟨y, hy, hxy⟩ := pyMem_iff.mp (h1 x hx)
  obtain ⟨z, hz, hyz⟩ := pyMem_iff.mp (h2 y hy)
  exact pyMem_iff.mpr ⟨z, hz, pyIdEq_trans x y z hxy hyz⟩

/- ------------------------------------------------------------------ -/
/- Claim theorems                                                     -/
/- ------------------------------------------------------------------ -/

/-- C4: label normalization is idempotent; every NaN-valued float, regardless
of payload, maps to the one shared sentinel, which compares equal to itself;
every non-NaN value is left unchanged.  (That the operation raises no
exception on any hashable input is modelled by `normalize_label` being a total
function on `Label`.) -/
theorem normalize_label_idempotent_nan_to_sentinel :
    (∀ x : Label, normalize_label (normalize_label x) = normalize_label x) ∧
    (∀ p : Nat, normalize_label (Label.float (.nan p)) = Label.sentinel) ∧
    pyEq Label.sentinel Label.sentinel = true ∧
    (∀ x : Label, is_nan x = false → normalize_label x = x) := by
  refine ⟨?_, fun p => rfl, by simp [pyEq], ?_⟩
  · intro x
    by_cases h : is_nan x = true
    · have h1 : normalize_label x = Label.sentinel := by simp [normalize_label, h]
      rw [h1]
      rfl
    · simp only [Bool.not_eq_true] at h
      have h1 : normalize_label x = x := by simp [normalize_label, h]
      rw [h1, h1]
  · intro x h
    simp [normalize_label, h]

/-- Witness for C4 at concrete inputs. -/
theorem normalize_label_idempotent_nan_to_sentinel_witness :
    is_nan (Label.int 5) = false ∧ normalize_label (Label.int 5) = Label.int 5 :=
  ⟨rfl, normalize_label_idempotent_nan_to_sentinel.2.2.2 (Label.int 5) rfl⟩

/-- C2: the reference engine raises `ValueError` whenever the materialized
inputs have different lengths, whatever their labels (so before any
normalization or metric work contributes); and the battery's
`length_mismatch` case passes exactly when the candidate call raises a
`ValueError` — returning a value, or raising a different kind, fails the
case. -/
theorem length_mismatch_behaviour :
    (∀ y_true y_pred : List Label, y_true.length ≠ y_pred.length →
        macro_f1_ref y_true y_pred = .error .valueError) ∧
    battery[8]? = some ⟨"length_mismatch", [iL 0, iL 1, iL 2], [iL 0, iL 1],
      none, some .valueError⟩ ∧
    (∀ cand : CandBehavior,
        run_case "length_mismatch" [iL 0, iL 1, iL 2] [iL 0, iL 1]
            none (some .valueError) cand = .ok .pass
          ↔ cand.result = .error PyExc.valueError) := by
  refine ⟨?_, rfl, ?_⟩
  · intro yt yp h
    simp [macro_f1_ref, materialize, h]
  · intro cand
    obtain ⟨res, pT, pP⟩ := cand
    cases res with
    | error e => cases e <;> simp [run_case] <;> rfl
    | ok out => simp [run_case]

/-- Witness for C2: the engine raises on `[0,1,2]` vs `[0,1]`, and a candidate
raising `ValueError` there passes the `length_mismatch` case. -/
theorem length_mismatch_behaviour_witness :
    macro_f1_ref [iL 0, iL 1, iL 2] [iL 0, iL 1] = .error .valueError ∧
    run_case "length_mismatch" [iL 0, iL 1, iL 2] [iL 0, iL 1] none (some .valueError)
      ⟨.error .valueError, [iL 0, iL 1, iL 2], [iL 0, iL 1]⟩ = .ok .pass :=
  ⟨length_mismatch_behaviour.1 _ _ (by decide),
   (length_mismatch_behaviour.2.2 _).mpr rfl⟩

/-- C8: the style checker's nested-import rejection is unreachable.  Whenever
the module loads and `macro_f1` starts with a non-empty docstring, the run
proceeds to the battery even if the body nests imports; and no outcome of the
style-check block is ever the `imports are not allowed inside macro_f1`
failure (it sits after the unconditional `sys.exit(1)` of the `except`
handler). -/
theorem nested_import_check_unreachable :
    (∀ (ds : Option String) (imp : Bool), docstring_ok ds = true →
        style_check_block (.ok ds) imp = .proceed) ∧
    (∀ (insp : InspectResult) (imp : Bool),
        (style_check_block insp imp == StyleVerdict.failNestedImport) = false) := by
  refine ⟨?_, ?_⟩
  · intro ds imp h
    simp [style_check_block, h]
  · intro insp imp
    have hcases : style_check_block insp imp = .proceed ∨
        style_check_block insp imp = .failDocstring ∨
        style_check_block insp imp = .failInspect := by
      cases insp with
      | ok ds =>
        by_cases h : docstring_ok ds = true
        · left
          simp [style_check_block, h]
        · right; left
          simp [style_check_block, h]
      | raises => right; right; rfl
    rcases hcases with h | h | h <;> rw [h] <;> rfl

/-- Witness for C8: a module whose `macro_f1` has a docstring but also a
nested import proceeds to the battery. -/
theorem nested_import_check_unreachable_witness :
    docstring_ok (some "doc") = true ∧
    style_check_block (.ok (some "doc")) true = .proceed :=
  ⟨by decide, nested_import_check_unreachable.1 (some "doc") true (by decide)⟩

/-- C10: a boolean return from the candidate is accepted by the numeric-type
check (`bool` is an `int` subclass) and converts to the float `1.0` or `0.0`;
the non-numeric-output failure is never produced for a boolean return. -/
theorem bool_return_treated_as_numeric :
    (∀ b : Bool, isNumericVal (RetVal.bool b) = true) ∧
    (∀ b : Bool, toFloatVal (RetVal.bool b) = PFloat.val (if b then 1 else 0)) ∧
    (∀ (b : Bool) (name : String) (y_true y_pred : List Label) (expect : Option ℚ)
        (cand : CandBehavior), cand.result = .ok (RetVal.bool b) →
        run_case name y_true y_pred expect none cand ≠ .ok Verdict.failNonNumeric) := by
  refine ⟨fun b => rfl, ?_, ?_⟩
  · intro b
    cases b <;> simp [toFloatVal, boolVal]
  · intro b name yt yp expect cand h
    unfold run_case
    rw [h]
    simp only [Option.isSome_none, Bool.false_eq_true, if_false, isNumericVal,
      Bool.not_true, Bool.false_eq_true]
    split
    · simp
    · split
      · simp
      · split
        · simp
        · split
          · simp
          · split
            · simp
            · simp

/-- Witness for C10: a candidate returning `True` against literal expectation
`1.0` is not flagged as non-numeric. -/
theorem bool_return_treated_as_numeric_witness :
    run_case "w" [iL 0] [iL 0] (some 1) none ⟨.ok (RetVal.bool true), [iL 0], [iL 0]⟩
      ≠ .ok Verdict.failNonNumeric :=
  bool_return_treated_as_numeric.2.2 true "w" [iL 0] [iL 0] (some 1) _ rfl

/-- C1 counterexample: on the pair `[True]`, `[1]` both labels survive
normalization unchanged, yet the engine's ClassSet holds a single class —
Python's `==` equates `True` and `1`, so they are not two distinct classes as
the claim states. -/
theorem bool_int_two_classes_cex :
    normalize_label (Label.bool true) = Label.bool true ∧
    normalize_label (Label.int 1) = Label.int 1 ∧
    classSetOf [Label.bool true] [Label.int 1] = [Label.bool true] ∧
    ¬(classSetOf [Label.bool true] [Label.int 1]).length = 2 ∧
    ¬pyEq (Label.bool true) (Label.int 1) = false := by
  have hset : classSetOf [Label.bool true] [Label.int 1] = [Label.bool true] := by
    simp [classSetOf, pyDedup, pyIdEq, pyEq, structEq, normalize_label, is_nan, boolVal]
  refine ⟨rfl, rfl, hset, ?_, ?_⟩
  · rw [hset]
    simp
  · simp [pyEq, boolVal]

/-- C1 amended: the boolean `True` and the integer `1` pass through
normalization unchanged, but Python equality equates them
(`True == 1`), so the engine's ClassSet never contains both — they are merged
into a single class rather than counted as two. -/
theorem bool_int_merged_into_one_class :
    normalize_label (Label.bool true) = Label.bool true ∧
    normalize_label (Label.int 1) = Label.int 1 ∧
    pyEq (Label.bool true) (Label.int 1) = true ∧
    pyEq (Label.int 1) (Label.bool true) = true ∧
    ∀ y_true y_pred : List Label,
      (((classSetOf y_true y_pred).any (fun c => structEq c (Label.bool true))) &&
       ((classSetOf y_true y_pred).any (fun c => structEq c (Label.int 1)))) = false := by
  refine ⟨rfl, rfl, by simp [pyEq, boolVal], by simp [pyEq, boolVal], ?_⟩
  intro yt yp
  cases h1 : (classSetOf yt yp).any (fun c => structEq c (Label.bool true)) with
  | false => simp
  | true =>
    cases h2 : (classSetOf yt yp).any (fun c => structEq c (Label.int 1)) with
    | false => simp
    | true =>
      exfalso
      obtain ⟨u, hu, hu2⟩ := List.any_eq_true.mp h1
      obtain ⟨v, hv, hv2⟩ := List.any_eq_true.mp h2
      have hu3 : u = Label.bool true := by
        cases u <;> simp_all [structEq]
      have hv3 : v = Label.int 1 := by
        cases v <;> simp_all [structEq]
      subst hu3
      subst hv3
      rw [classSetOf] at hu hv
      have := pyDedup_separates hu hv (by simp [pyIdEq, pyEq, structEq, boolVal])
        (by simp [pyIdEq, pyEq, structEq, boolVal])
      simp at this

/-- The reference engine, on equal-length inputs, computes exactly the
composition of the spec's policy pieces (shared refinement lemma). -/
theorem macro_f1_ref_eq_macro_policy (yt yp : List Label)
    (h : yt.length = yp.length) :
    macro_f1_ref yt yp = .ok (macro_policy yt yp) := by
  simp only [macro_f1_ref, macro_policy, classSetOf, materialize, class_f1, f1_policy,
    precision_policy, recall_policy, tp_count, fp_count, fn_count, h, ne_eq,
    not_true_eq_false, if_false]
  generalize pyDedup (yt.map normalize_label ++ yp.map normalize_label) = classes
  cases classes with
  | nil => simp
  | cons c cs =>
    simp only [List.map_cons, List.isEmpty_cons, Bool.false_eq_true, if_false,
      List.sum_cons, List.length_cons, List.length_map, Nat.cast_add, Nat.cast_one]
    rfl

/-- C6: on equal-length inputs the reference engine computes exactly the
spec's per-class policy — precision `0` when `tp+fp = 0` else `tp/(tp+fp)`,
recall `0` when `tp+fn = 0` else `tp/(tp+fn)`, per-class F1 `0` when
`precision+recall = 0` — averaged over the ClassSet, and returns `0.0` when
the ClassSet is empty (both inputs empty).  The final conjunct exercises the
zero-division branches concretely: on `[0]` vs `[1]` class `0` has
`tp+fp = 0` and class `1` has `tp+fn = 0`, and both per-class F1 values are
`0`. -/
theorem zero_division_policy :
    (∀ y_true y_pred : List Label, y_true.length = y_pred.length →
        macro_f1_ref y_true y_pred = .ok (macro_policy y_true y_pred)) ∧
    (∀ tp fp : ℕ, tp + fp = 0 → precision_policy tp fp = 0) ∧
    (∀ tp fn : ℕ, tp + fn = 0 → recall_policy tp fn = 0) ∧
    (∀ p r : ℚ, p + r = 0 → f1_policy p r = 0) ∧
    macro_f1_ref [] [] = .ok 0 ∧
    macro_f1_ref [iL 0] [iL 1] = .ok 0 := by
  refine ⟨macro_f1_ref_eq_macro_policy, ?_, ?_, ?_, ?_, ?_⟩
  · intro tp fp h
    simp [precision_policy, h]
  · intro tp fn h
    simp [recall_policy, h]
  · intro p r h
    simp [f1_policy, h]
  · simp [macro_f1_ref, materialize, pyDedup]
  · simp [macro_f1_ref, materialize, pyDedup, pyIdEq, pyEq, structEq, normalize_label,
      is_nan, iL, List.countP, List.countP.go]

/-- Witness for C6: the engine agrees with the policy composition on a
concrete input, and the guarded branches return `0`. -/
theorem zero_division_policy_witness :
    macro_f1_ref [iL 7] [iL 7] = .ok (macro_policy [iL 7] [iL 7]) ∧
    precision_policy 0 0 = 0 ∧ recall_policy 0 0 = 0 ∧ f1_policy 0 0 = 0 :=
  ⟨zero_division_policy.1 _ _ rfl, zero_division_policy.2.1 0 0 rfl,
   zero_division_policy.2.2.1 0 0 rfl, zero_division_policy.2.2.2.1 0 0 (by norm_num)⟩

/- Congruence of the engine under Python list equality: Python-equal lists
(as the mutation guard compares them) produce the same reference value. -/

theorem pyEq_congr_left {u u' : Label} (h : pyIdEq u u' = true) (c : Label) :
    pyEq u c = pyEq u' c := by
  simp only [pyIdEq, Bool.or_eq_true] at h
  rcases h with hs | hp
  · rw [structEq_sound _ _ hs]
  · cases hc : pyEq u' c with
    | true => exact pyEq_trans u u' c hp hc
    | false =>
      cases hc2 : pyEq u c with
      | false => rfl
      | true =>
        exfalso
        have hp' : pyEq u' u = true := by
          rw [pyEq_symm]
          exact hp
        have hx := pyEq_trans u' u c hp' hc2
        rw [hx] at hc
        cases hc

theorem pyEq_congr_right {v v' : Label} (h : pyIdEq v v' = true) (c : Label) :
    pyEq c v = pyEq c v' := by
  rw [pyEq_symm c v, pyEq_symm c v']
  exact pyEq_congr_left h c

theorem pyIdEq_nan_left {p : Nat} {w : Label}
    (h : pyIdEq (.float (.nan p)) w = true) : w = .float (.nan p) := by
  simp only [pyIdEq, Bool.or_eq_true] at h
  rcases h with hs | hp
  · exact (structEq_sound _ _ hs).symm
  · rw [pyEq_nan_left] at hp
    cases hp

theorem pyIdEq_nan_right {p : Nat} {w : Label}
    (h : pyIdEq w (.float (.nan p)) = true) : w = .float (.nan p) := by
  simp only [pyIdEq, Bool.or_eq_true] at h
  rcases h with hs | hp
  · exact structEq_sound _ _ hs
  · rw [pyEq_nan_right] at hp
    cases hp

theorem pyIdEq_congr {u u' v v' : Label} (hu : pyIdEq u u' = true)
    (hv : pyIdEq v v' = true) : pyIdEq u v = pyIdEq u' v' := by
  have hpe : pyEq u v = pyEq u' v' := by
    rw [pyEq_congr_left hu v]
    exact pyEq_congr_right hv u'
  cases hp : pyEq u' v' with
  | true => simp only [pyIdEq, hpe, hp, Bool.or_true]
  | false =>
    have hpe0 : pyEq u v = false := by rw [hpe, hp]
    simp only [pyIdEq, hpe0, hp, Bool.or_false]
    cases hs : structEq u v with
    | true =>
      have huv := structEq_sound _ _ hs
      rw [← huv] at hpe0
      obtain ⟨q, hq⟩ := bare_nan_of_not_pyEq_self hpe0
      subst hq
      rw [← huv] at hv
      have h1 := pyIdEq_nan_left hu
      have h2 := pyIdEq_nan_left hv
      rw [h1, h2, structEq_refl]
    | false =>
      cases hs2 : structEq u' v' with
      | false => rfl
      | true =>
        exfalso
        have heq := structEq_sound _ _ hs2
        have hself : pyEq u' u' = false := by
          rw [← heq] at hp
          exact hp
        obtain ⟨q, hq⟩ := bare_nan_of_not_pyEq_self hself
        subst hq
        have hu2 := pyIdEq_nan_right hu
        have hv2 : v = Label.float (.nan q) := pyIdEq_nan_right (heq ▸ hv)
        rw [hu2, hv2, structEq_refl] at hs
        cases hs

theorem pyIdEqList_length {xs ys : List Label} (h : pyIdEqList xs ys = true) :
    xs.length = ys.length := by
  induction xs generalizing ys with
  | nil =>
    cases ys with
    | nil => rfl
    | cons y ys => simp [pyIdEqList] at h
  | cons x xs ih =>
    cases ys with
    | nil => simp [pyIdEqList] at h
    | cons y ys =>
      simp only [pyIdEqList, Bool.and_eq_true] at h
      simp [ih h.2]

theorem not_nan_of_pyEq_left {u v : Label} (h : pyEq u v = true) :
    is_nan u = false := by
  cases u with
  | float f =>
    cases f with
    | nan p =>
      rw [pyEq_nan_left] at h
      cases h
    | inf => rfl
    | ninf => rfl
    | val q => rfl
  | int n => rfl
  | bool b => rfl
  | str s => rfl
  | tuple t => rfl
  | fset t => rfl
  | sentinel => rfl

theorem not_nan_of_pyEq_right {u v : Label} (h : pyEq u v = true) :
    is_nan v = false := by
  rw [pyEq_symm] at h
  exact not_nan_of_pyEq_left h

theorem pyIdEq_normalize {u u' : Label} (h : pyIdEq u u' = true) :
    pyIdEq (normalize_label u) (normalize_label u') = true := by
  have h0 := h
  simp only [pyIdEq, Bool.or_eq_true] at h
  rcases h with hs | hp
  · rw [structEq_sound _ _ hs]
    exact pyIdEq_refl _
  · rw [normalize_label, normalize_label, not_nan_of_pyEq_left hp,
      not_nan_of_pyEq_right hp]
    simpa using h0

theorem pyIdEqList_normalize {xs ys : List Label} (h : pyIdEqList xs ys = true) :
    pyIdEqList (xs.map normalize_label) (ys.map normalize_label) = true := by
  induction xs generalizing ys with
  | nil =>
    cases ys with
    | nil => simpa [pyIdEqList] using h
    | cons y ys => simp [pyIdEqList] at h
  | cons x xs ih =>
    cases ys with
    | nil => simp [pyIdEqList] at h
    | cons y ys =>
      simp only [pyIdEqList, Bool.and_eq_true] at h
      simp only [List.map_cons, pyIdEqList, Bool.and_eq_true]
      have hx := pyIdEq_normalize (show pyIdEq x y = true by
        simp [pyIdEq, Bool.or_eq_true, h.1])
      constructor
      · simpa [pyIdEq] using hx
      · exact ih h.2

theorem pyIdEqList_append {a a' b b' : List Label}
    (ha : pyIdEqList a a' = true) (hb : pyIdEqList b b' = true) :
    pyIdEqList (a ++ b) (a' ++ b') = true := by
  induction a generalizing a' with
  | nil =>
    cases a' with
    | nil => simpa using hb
    | cons y ys => simp [pyIdEqList] at ha
  | cons x xs ih =>
    cases a' with
    | nil => simp [pyIdEqList] at ha
    | cons y ys =>
      simp only [pyIdEqList, Bool.and_eq_true] at ha
      simp only [List.cons_append, pyIdEqList, Bool.and_eq_true]
      exact ⟨ha.1, ih ha.2⟩

theorem pyIdEqList_filter {l l' : List Label} {x x' : Label}
    (h : pyIdEqList l l' = true) (hx : pyIdEq x x' = true) :
    pyIdEqList (l.filter (fun y => !(pyIdEq y x)))
      (l'.filter (fun y => !(pyIdEq y x'))) = true := by
  induction l generalizing l' with
  | nil =>
    cases l' with
    | nil => simpa [pyIdEqList] using h
    | cons y l' => simp [pyIdEqList] at h
  | cons y l ih =>
    cases l' with
    | nil => simp [pyIdEqList] at h
    | cons y' l' =>
      simp only [pyIdEqList, Bool.and_eq_true] at h
      have hyy : pyIdEq y x = pyIdEq y' x' :=
        pyIdEq_congr (show pyIdEq y y' = true by simp [pyIdEq, h.1]) hx
      rw [List.filter_cons, List.filter_cons, hyy]
      cases hcond : pyIdEq y' x' with
      | true => simpa [hcond] using ih h.2
      | false =>
        simp only [hcond, Bool.not_false, if_true]
        simp only [pyIdEqList, Bool.and_eq_true]
        exact ⟨h.1, ih h.2⟩

theorem pyDedup_rel : ∀ {l l' : List Label}, pyIdEqList l l' = true →
    pyIdEqList (pyDedup l) (pyDedup l') = true := by
  intro l
  induction l using pyDedup.induct with
  | case1 =>
    intro l' h
    cases l' with
    | nil => simpa [pyDedup, pyIdEqList] using h
    | cons y l' => simp [pyIdEqList] at h
  | case2 x xs ih =>
    intro l' h
    cases l' with
    | nil => simp [pyIdEqList] at h
    | cons x' xs' =>
      simp only [pyIdEqList, Bool.and_eq_true] at h
      rw [pyDedup, pyDedup]
      simp only [pyIdEqList, Bool.and_eq_true]
      refine ⟨h.1, ih (pyIdEqList_filter h.2 ?_)⟩
      simp [pyIdEq, h.1]

theorem countP_zip_congr (F : Bool → Bool → Bool)
    {nt nt' np np' : List Label} {c c' : Label}
    (h1 : pyIdEqList nt nt' = true) (h2 : pyIdEqList np np' = true)
    (hc : pyIdEq c c' = true) :
    List.countP (fun ab => F (pyEq ab.1 c) (pyEq ab.2 c)) (nt.zip np) =
      List.countP (fun ab => F (pyEq ab.1 c') (pyEq ab.2 c')) (nt'.zip np') := by
  induction nt generalizing nt' np np' with
  | nil =>
    cases nt' with
    | nil => simp
    | cons a nt' => simp [pyIdEqList] at h1
  | cons a nt ih =>
    cases nt' with
    | nil => simp [pyIdEqList] at h1
    | cons a' nt' =>
      cases np with
      | nil =>
        cases np' with
        | nil => simp
        | cons b np' => simp [pyIdEqList] at h2
      | cons b np =>
        cases np' with
        | nil => simp [pyIdEqList] at h2
        | cons b' np' =>
          simp only [pyIdEqList, Bool.and_eq_true] at h1 h2
          simp only [List.zip_cons_cons, List.countP_cons]
          rw [ih h1.2 h2.2]
          have e1 : pyEq a c = pyEq a' c' := by
            rw [pyEq_congr_left (show pyIdEq a a' = true by simp [pyIdEq, h1.1]) c]
            exact pyEq_congr_right hc a'
          have e2 : pyEq b c = pyEq b' c' := by
            rw [pyEq_congr_left (show pyIdEq b b' = true by simp [pyIdEq, h2.1]) c]
            exact pyEq_congr_right hc b'
          rw [e1, e2]

theorem class_f1_congr {nt nt' np np' : List Label} {c c' : Label}
    (h1 : pyIdEqList nt nt' = true) (h2 : pyIdEqList np np' = true)
    (hc : pyIdEq c c' = true) :
    class_f1 nt np c = class_f1 nt' np' c' := by
  have e1 : tp_count nt np c = tp_count nt' np' c' :=
    countP_zip_congr (fun u v => u && v) h1 h2 hc
  have e2 : fp_count nt np c = fp_count nt' np' c' :=
    countP_zip_congr (fun u v => !u && v) h1 h2 hc
  have e3 : fn_count nt np c = fn_count nt' np' c' :=
    countP_zip_congr (fun u v => u && !v) h1 h2 hc
  unfold class_f1
  rw [e1, e2, e3]

theorem map_class_f1_congr {nt nt' np np' : List Label}
    (h1 : pyIdEqList nt nt' = true) (h2 : pyIdEqList np np' = true) :
    ∀ {cs cs' : List Label}, pyIdEqList cs cs' = true →
      cs.map (class_f1 nt np) = cs'.map (class_f1 nt' np') := by
  intro cs
  induction cs with
  | nil =>
    intro cs' h
    cases cs' with
    | nil => rfl
    | cons c cs' => simp [pyIdEqList] at h
  | cons c cs ih =>
    intro cs' h
    cases cs' with
    | nil => simp [pyIdEqList] at h
    | cons c' cs' =>
      simp only [pyIdEqList, Bool.and_eq_true] at h
      simp only [List.map_cons]
      rw [class_f1_congr h1 h2 (show pyIdEq c c' = true by simp [pyIdEq, h.1]),
        ih h.2]

theorem macro_policy_congr {a a' b b' : List Label}
    (ha : pyIdEqList a a' = true) (hb : pyIdEqList b b' = true) :
    macro_policy a b = macro_policy a' b' := by
  have hna := pyIdEqList_normalize ha
  have hnb := pyIdEqList_normalize hb
  have hclasses : pyIdEqList (classSetOf a b) (classSetOf a' b') = true := by
    unfold classSetOf
    exact pyDedup_rel (pyIdEqList_append hna hnb)
  have hlen := pyIdEqList_length hclasses
  have hmap := map_class_f1_congr hna hnb hclasses
  unfold macro_policy
  cases hcs : classSetOf a b with
  | nil =>
    cases hcs' : classSetOf a' b' with
    | nil => simp
    | cons c' cs' =>
      rw [hcs, hcs'] at hlen
      simp at hlen
  | cons c cs =>
    cases hcs' : classSetOf a' b' with
    | nil =>
      rw [hcs, hcs'] at hlen
      simp at hlen
    | cons c' cs' =>
      rw [hcs, hcs'] at hmap hlen
      simp only [List.isEmpty_cons, Bool.false_eq_true, if_false]
      rw [hmap, hlen]

theorem listEqPy_rel {a a' : List Label} (h : listEqPy a a' = true) :
    pyIdEqList a a' = true := by
  simp only [listEqPy, Bool.and_eq_true] at h
  exact h.2

/-- The reference engine yields equal results on Python-equal input lists:
in particular, when the mutation guard finds the post-call lists equal to the
snapshots, the reference computed on the post-call lists coincides with the
reference on the original inputs. -/
theorem macro_f1_ref_congr {a a' b b' : List Label}
    (ha : listEqPy a a' = true) (hb : listEqPy b b' = true) :
    macro_f1_ref a b = macro_f1_ref a' b' := by
  have hra := listEqPy_rel ha
  have hrb := listEqPy_rel hb
  have hlena := pyIdEqList_length hra
  have hlenb := pyIdEqList_length hrb
  by_cases hlen : a.length = b.length
  · rw [macro_f1_ref_eq_macro_policy a b hlen,
      macro_f1_ref_eq_macro_policy a' b' (by omega)]
    rw [macro_policy_congr hra hrb]
  · have h1 : macro_f1_ref a b = .error .valueError := by
      simp [macro_f1_ref, materialize, hlen]
    have h2 : macro_f1_ref a' b' = .error .valueError := by
      simp [macro_f1_ref, materialize, show ¬ a'.length = b'.length by omega]
    rw [h1, h2]

/-- C5: for a case with no expected exception whose comparison target exists
(the supplied literal `expect` when given, otherwise the reference engine's
result on the same inputs — that is how the grader selects the value the
output must equal), the Oracle passes the case exactly when the candidate
returned without exception, the value is numeric, lies within `1e-12` of
`[0,1]`, matches the target within absolute tolerance `1e-9` (the comparison
itself demands both operands finite), and both input lists are unmutated. -/
theorem oracle_pass_iff (name : String) (y_true y_pred : List Label)
    (expect : Option ℚ) (cand : CandBehavior) (target : ℚ)
    (htarget : (match expect with
                | some e => Except.ok e
                | none => macro_f1_ref y_true y_pred) = Except.ok target) :
    run_case name y_true y_pred expect none cand = .ok .pass ↔
      ∃ out, cand.result = .ok out ∧ isNumericVal out = true ∧
        inUnitRange (toFloatVal out) = true ∧
        approx_equal (toFloatVal out) (.val target) tol9 = true ∧
        listEqPy cand.postTrue y_true = true ∧
        listEqPy cand.postPred y_pred = true := by
  obtain ⟨res, pT, pP⟩ := cand
  cases res with
  | error e => simp [run_case]
  | ok out =>
    by_cases h4 : listEqPy pT y_true = true
    · by_cases h5 : listEqPy pP y_pred = true
      · have hscrut : (match expect with
            | some e => Except.ok e
            | none => macro_f1_ref pT pP) = Except.ok target := by
          cases expect with
          | some e => exact htarget
          | none =>
            rw [macro_f1_ref_congr h4 h5]
            exact htarget
        simp only [run_case, materialize, frozen_copy_list, Option.isSome_none,
          Bool.false_eq_true, if_false, hscrut]
        by_cases h1 : isNumericVal out = true <;>
          by_cases h2 : inUnitRange (toFloatVal out) = true <;>
            by_cases h3 : approx_equal (toFloatVal out) (.val target) tol9 = true <;>
              simp [h1, h2, h3, h4, h5]
      · have hnp : run_case name y_true y_pred expect none
            ⟨.ok out, pT, pP⟩ ≠ .ok .pass := by
          simp only [run_case, materialize, frozen_copy_list, Option.isSome_none,
            Bool.false_eq_true, if_false]
          split
          · simp
          · split
            · simp
            · split
              · simp
              · split
                · simp
                · split
                  · simp
                  · split
                    · simp
                    · simp_all
        exact iff_of_false hnp
          (by rintro ⟨o, ho, _, _, _, _, hc⟩; exact h5 hc)
    · have hnp : run_case name y_true y_pred expect none
          ⟨.ok out, pT, pP⟩ ≠ .ok .pass := by
        simp only [run_case, materialize, frozen_copy_list, Option.isSome_none,
          Bool.false_eq_true, if_false]
        split
        · simp
        · split
          · simp
          · split
            · simp
            · split
              · simp
              · split
                · simp
                · split
                  · simp
                  · simp_all
      exact iff_of_false hnp
        (by rintro ⟨o, ho, _, _, _, hc, _⟩; exact h4 hc)

/-- Witness for C5 at a concrete case: literal expectation `1.0`, candidate
returns the int `1` and leaves its inputs alone. -/
theorem oracle_pass_iff_witness :
    run_case "w" [iL 0] [iL 0] (some 1) none
        ⟨.ok (RetVal.int 1), [iL 0], [iL 0]⟩ = .ok .pass ↔
      ∃ out, (Except.ok (RetVal.int 1) : Except PyExc RetVal) = .ok out ∧
        isNumericVal out = true ∧ inUnitRange (toFloatVal out) = true ∧
        approx_equal (toFloatVal out) (.val 1) tol9 = true ∧
        listEqPy [iL 0] [iL 0] = true ∧ listEqPy [iL 0] [iL 0] = true :=
  oracle_pass_iff "w" [iL 0] [iL 0] (some 1) ⟨.ok (RetVal.int 1), [iL 0], [iL 0]⟩ 1 rfl

/-- C7 (amended): once a candidate call has returned a numeric, in-range
value matching the target the grader actually compares against — the literal
`expect` when supplied, otherwise the reference computed on the *post-call*
(possibly mutated) lists — the Mutation Guard compares the post-call lists
against the pre-call snapshots by list equality: any difference yields the
dedicated mutated-input verdict (whose message differs from the
value-mismatch one), and equality of both lists is exactly what lets the case
pass. -/
theorem mutation_guard_flags_mutation (name : String) (y_true y_pred : List Label)
    (expect : Option ℚ) (cand : CandBehavior) (out : RetVal) (target : ℚ)
    (hres : cand.result = .ok out)
    (hnum : isNumericVal out = true)
    (hrange : inUnitRange (toFloatVal out) = true)
    (htarget : (match expect with
                | some e => Except.ok e
                | none => macro_f1_ref cand.postTrue cand.postPred) =
      Except.ok target)
    (happrox : approx_equal (toFloatVal out) (.val target) tol9 = true) :
    (listEqPy cand.postTrue y_true = false →
        run_case name y_true y_pred expect none cand = .ok .failMutatedTrue) ∧
    (listEqPy cand.postTrue y_true = true → listEqPy cand.postPred y_pred = false →
        run_case name y_true y_pred expect none cand = .ok .failMutatedPred) ∧
    (listEqPy cand.postTrue y_true = true → listEqPy cand.postPred y_pred = true →
        run_case name y_true y_pred expect none cand = .ok .pass) ∧
    verdictMsg .failMutatedTrue ≠ verdictMsg .failValueMismatch ∧
    verdictMsg .failMutatedPred ≠ verdictMsg .failValueMismatch := by
  refine ⟨?_, ?_, ?_, by simp [verdictMsg], by simp [verdictMsg]⟩
  · intro hmut
    simp [run_case, materialize, frozen_copy_list, hres, htarget, hnum, hrange,
      happrox, hmut]
  · intro hok hmut
    simp [run_case, materialize, frozen_copy_list, hres, htarget, hnum, hrange,
      happrox, hok, hmut]
  · intro hok1 hok2
    simp [run_case, materialize, frozen_copy_list, hres, htarget, hnum, hrange,
      happrox, hok1, hok2]

/-- Witness for C7: a candidate that returns the correct value `1` but leaves
`y_true` as `[9]` instead of `[0]` is flagged as a mutation failure. -/
theorem mutation_guard_flags_mutation_witness :
    run_case "w" [iL 0] [iL 0] (some 1) none
      ⟨.ok (RetVal.int 1), [iL 9], [iL 0]⟩ = .ok Verdict.failMutatedTrue :=
  (mutation_guard_flags_mutation "w" [iL 0] [iL 0] (some 1)
      ⟨.ok (RetVal.int 1), [iL 9], [iL 0]⟩ (RetVal.int 1) 1 rfl rfl
      (by norm_num [inUnitRange, toFloatVal, pfLe, eps12]) rfl
      (by norm_num [approx_equal, toFloatVal, tol9])).1
    (by simp [listEqPy, pyIdEqList, structEq, pyEq, iL])

/-- C7 counterexample: with no literal expectation, the grader computes the
reference on the post-call lists, so a candidate that mutates `y_true=[0,1]`
to `[5,1]` while returning `1` — the correct value for the original inputs —
is reported as a *value mismatch* (the reference on the mutated lists is
`1/3`), not as a mutation failure: the claim that such a candidate is flagged
as a mutation failure is false of the program. -/
theorem mutation_masked_as_value_mismatch_cex :
    macro_f1_ref [iL 0, iL 1] [iL 0, iL 1] = .ok 1 ∧
    approx_equal (toFloatVal (RetVal.int 1)) (.val 1) tol9 = true ∧
    listEqPy [iL 5, iL 1] [iL 0, iL 1] = false ∧
    macro_f1_ref [iL 5, iL 1] [iL 0, iL 1] = .ok (1 / 3 : ℚ) ∧
    run_case "w" [iL 0, iL 1] [iL 0, iL 1] none none
        ⟨.ok (RetVal.int 1), [iL 5, iL 1], [iL 0, iL 1]⟩ =
      .ok Verdict.failValueMismatch ∧
    Verdict.failValueMismatch ≠ Verdict.failMutatedTrue ∧
    Verdict.failValueMismatch ≠ Verdict.failMutatedPred := by
  have href : macro_f1_ref [iL 5, iL 1] [iL 0, iL 1] = .ok (1 / 3 : ℚ) := by
    simp [macro_f1_ref, materialize, pyDedup, pyIdEq, pyEq, structEq,
      normalize_label, is_nan, iL, List.countP, List.countP.go]
    norm_num
  refine ⟨?_, ?_, ?_, href, ?_, by simp, by simp⟩
  · simp [macro_f1_ref, materialize, pyDedup, pyIdEq, pyEq, structEq,
      normalize_label, is_nan, iL, List.countP, List.countP.go]
    norm_num
  · norm_num [approx_equal, toFloatVal, tol9]
  · simp [listEqPy, pyIdEqList, pyIdEq, pyEq, structEq, iL]
  · have habs : |(1 : ℚ) - 1 / 3| = 2 / 3 := by
      rw [abs_of_nonneg (by norm_num : (0 : ℚ) ≤ 1 - 1 / 3)]
      norm_num
    have happ : approx_equal (PFloat.val 1) (PFloat.val (1 / 3 : ℚ)) tol9
        = false := by
      simp only [approx_equal, tol9, habs, decide_eq_false_iff_not]
      norm_num
    simp only [run_case, materialize, frozen_copy_list, Option.isSome_none,
      Bool.false_eq_true, if_false, href]
    norm_num [isNumericVal, toFloatVal, inUnitRange, pfLe, eps12, happ]

theorem setup_exit_eq_one {s : SetupState} {c : Nat} (h : setup_exit s = some c) :
    c = 1 := by
  unfold setup_exit at h
  split_ifs at h
  · exact (Option.some.injEq _ _ ▸ h).symm ▸ rfl
  · exact (Option.some.injEq _ _ ▸ h).symm ▸ rfl
  · exact (Option.some.injEq _ _ ▸ h).symm ▸ rfl
  · exact (Option.some.injEq _ _ ▸ h).symm ▸ rfl
  · cases hstyle : style_check_block s.inspect s.body_has_nested_import <;>
      rw [hstyle] at h <;> simp at h <;> omega

theorem run_cases_list_length :
    ∀ (cases : List TestCase) (cand : TestCase → CandBehavior) (vs : List Verdict),
      run_cases_list cases cand = .ok vs → vs.length = cases.length := by
  intro cases
  induction cases with
  | nil =>
    intro cand vs h
    simp only [run_cases_list, Except.ok.injEq] at h
    simp [← h]
  | cons tc rest ih =>
    intro cand vs h
    simp only [run_cases_list] at h
    cases hrc : run_case tc.name tc.y_true tc.y_pred tc.expect tc.expect_exception (cand tc) with
    | error e =>
      rw [hrc] at h
      simp at h
    | ok v =>
      rw [hrc] at h
      cases hrest : run_cases_list rest cand with
      | error e =>
        rw [hrest] at h
        simp at h
      | ok vs2 =>
        rw [hrest] at h
        simp only [Except.ok.injEq] at h
        subst h
        simp [ih cand vs2 hrest]

/-- C9: the grader's process exit code is `0` exactly when setup succeeded and
the whole battery ran with every case passing; when the battery completes with
some case failing, the exit code is `1` and the verdict list still covers
every battery case (a failing case does not stop the run); and a fatal setup
failure exits with code `1` with no case executed at all. -/
theorem exit_code_spec (s : SetupState) (cand : TestCase → CandBehavior) :
    (grade_exit s cand = 0 ↔ setup_exit s = none ∧
        ∃ vs, run_cases_list battery cand = .ok vs ∧
          vs.all (fun v => v == Verdict.pass) = true) ∧
    (∀ vs, setup_exit s = none → run_cases_list battery cand = .ok vs →
        vs.all (fun v => v == Verdict.pass) = false →
        grade_exit s cand = 1 ∧ vs.length = battery.length) ∧
    (setup_exit s ≠ none → grade_exit s cand = 1 ∧ grade_verdicts s cand = []) := by
  refine ⟨⟨?_, ?_⟩, ?_, ?_⟩
  · intro h0
    cases hs : setup_exit s with
    | some c =>
      have hc := setup_exit_eq_one hs
      subst hc
      simp [grade_exit, hs] at h0
    | none =>
      refine ⟨rfl, ?_⟩
      cases hrun : run_cases_list battery cand with
      | error e => simp [grade_exit, hs, hrun] at h0
      | ok vs =>
        refine ⟨vs, rfl, ?_⟩
        cases hall : vs.all (fun v => v == Verdict.pass) with
        | true => rfl
        | false =>
          exfalso
          simp [grade_exit, hs, hrun, hall] at h0
  · rintro ⟨hs, vs, hrun, hall⟩
    simp [grade_exit, hs, hrun, hall]
  · intro vs hs hrun hall
    refine ⟨?_, run_cases_list_length _ _ _ hrun⟩
    simp [grade_exit, hs, hrun, hall]
  · intro hne
    obtain ⟨c, hc⟩ := Option.ne_none_iff_exists'.mp hne
    have h1 := setup_exit_eq_one hc
    subst h1
    exact ⟨by simp [grade_exit, hc], by simp [grade_verdicts, hc]⟩

/-- Witness for C9: a run whose solution file is missing exits 1 having
executed no case. -/
theorem exit_code_spec_witness :
    grade_exit ⟨true, false, false, true, .ok (some "doc"), false⟩
        (fun _ => ⟨.ok (.int 0), [], []⟩) = 1 ∧
    grade_verdicts ⟨true, false, false, true, .ok (some "doc"), false⟩
        (fun _ => ⟨.ok (.int 0), [], []⟩) = [] :=
  (exit_code_spec _ _).2.2 (by simp [setup_exit])

theorem precision_policy_bounds (tp fp : ℕ) :
    0 ≤ precision_policy tp fp ∧ precision_policy tp fp ≤ 1 := by
  unfold precision_policy
  split
  · norm_num
  · rename_i h
    have hpos : (0 : ℚ) < (tp : ℚ) + (fp : ℚ) := by
      have : 0 < tp + fp := Nat.pos_of_ne_zero h
      exact_mod_cast this
    constructor
    · positivity
    · rw [div_le_one hpos]
      exact le_add_of_nonneg_right (by positivity)

theorem recall_policy_bounds (tp fn : ℕ) :
    0 ≤ recall_policy tp fn ∧ recall_policy tp fn ≤ 1 := by
  unfold recall_policy
  split
  · norm_num
  · rename_i h
    have hpos : (0 : ℚ) < (tp : ℚ) + (fn : ℚ) := by
      have : 0 < tp + fn := Nat.pos_of_ne_zero h
      exact_mod_cast this
    constructor
    · positivity
    · rw [div_le_one hpos]
      exact le_add_of_nonneg_right (by positivity)

theorem f1_policy_bounds {p r : ℚ} (hp0 : 0 ≤ p) (hp1 : p ≤ 1) (hr0 : 0 ≤ r)
    (hr1 : r ≤ 1) : 0 ≤ f1_policy p r ∧ f1_policy p r ≤ 1 := by
  unfold f1_policy
  split
  · norm_num
  · rename_i h
    have hsum : 0 < p + r := lt_of_le_of_ne (by linarith) (Ne.symm h)
    constructor
    · positivity
    · rw [div_le_one hsum]
      nlinarith

theorem class_f1_bounds (yt yp : List Label) (c : Label) :
    0 ≤ class_f1 yt yp c ∧ class_f1 yt yp c ≤ 1 := by
  unfold class_f1
  exact f1_policy_bounds (precision_policy_bounds _ _).1 (precision_policy_bounds _ _).2
    (recall_policy_bounds _ _).1 (recall_policy_bounds _ _).2

theorem macro_policy_bounds (y_true y_pred : List Label) :
    0 ≤ macro_policy y_true y_pred ∧ macro_policy y_true y_pred ≤ 1 := by
  unfold macro_policy
  cases hcs : classSetOf y_true y_pred with
  | nil => norm_num
  | cons c cs =>
    simp only [List.isEmpty_cons, Bool.false_eq_true, if_false]
    have hmem : ∀ x ∈ (c :: cs).map
        (class_f1 (y_true.map normalize_label) (y_pred.map normalize_label)),
        0 ≤ x ∧ x ≤ 1 := by
      intro x hx
      obtain ⟨d, _, hdx⟩ := List.mem_map.mp hx
      rw [← hdx]
      exact class_f1_bounds _ _ d
    have hlen : (0 : ℚ) < ((c :: cs).length : ℚ) := by
      simp only [List.length_cons]
      exact_mod_cast Nat.succ_pos cs.length
    constructor
    · apply div_nonneg _ hlen.le
      exact List.sum_nonneg (fun x hx => (hmem x hx).1)
    · rw [div_le_one hlen]
      calc ((c :: cs).map _).sum
          ≤ ((c :: cs).map (class_f1 (y_true.map normalize_label)
              (y_pred.map normalize_label))).length • (1 : ℚ) :=
            List.sum_le_card_nsmul _ 1 (fun x hx => (hmem x hx).2)
        _ = ((c :: cs).length : ℚ) := by simp

theorem zip_self (l : List Label) : l.zip l = l.map (fun a => (a, a)) := by
  induction l with
  | nil => rfl
  | cons x xs ih => simp [ih]

theorem tp_count_self (yt : List Label) (c : Label) :
    tp_count yt yt c = List.countP (fun a => pyEq a c) yt := by
  unfold tp_count
  rw [zip_self, List.countP_map]
  apply List.countP_congr
  intro a _
  simp [Function.comp]

theorem fp_count_self (yt : List Label) (c : Label) : fp_count yt yt c = 0 := by
  unfold fp_count
  rw [zip_self, List.countP_map]
  apply List.countP_eq_zero.mpr
  intro a _
  simp [Function.comp]

theorem fn_count_self (yt : List Label) (c : Label) : fn_count yt yt c = 0 := by
  unfold fn_count
  rw [zip_self, List.countP_map]
  apply List.countP_eq_zero.mpr
  intro a _
  simp [Function.comp]

theorem perfect_class_f1 (yt : List Label) (c : Label)
    (hc : c ∈ yt.map normalize_label) :
    class_f1 (yt.map normalize_label) (yt.map normalize_label) c = 1 := by
  obtain ⟨a, _, ha⟩ := List.mem_map.mp hc
  have hclean : cleanLabel c := ha ▸ normalize_label_clean a
  have htp : 0 < tp_count (yt.map normalize_label) (yt.map normalize_label) c := by
    rw [tp_count_self]
    exact List.countP_pos_iff.mpr ⟨c, hc, pyEq_refl_of_clean c hclean⟩
  unfold class_f1
  rw [fp_count_self, fn_count_self]
  have h1 : tp_count (yt.map normalize_label) (yt.map normalize_label) c + 0 ≠ 0 := by
    omega
  have htpQ : ((tp_count (yt.map normalize_label) (yt.map normalize_label) c : ℕ) : ℚ) ≠ 0 :=
    Nat.cast_ne_zero.mpr (by omega)
  unfold precision_policy recall_policy f1_policy
  rw [if_neg h1, Nat.cast_zero, add_zero, div_self htpQ]
  norm_num

theorem macro_policy_self_eq_one (yt : List Label) (h : yt ≠ []) :
    macro_policy yt yt = 1 := by
  unfold macro_policy
  have hne : classSetOf yt yt ≠ [] := by
    unfold classSetOf
    cases hnt : yt.map normalize_label with
    | nil => exact absurd (List.map_eq_nil_iff.mp hnt) h
    | cons x xs => simp [pyDedup]
  cases hcs : classSetOf yt yt with
  | nil => exact absurd hcs hne
  | cons c cs =>
    simp only [List.isEmpty_cons, Bool.false_eq_true, if_false]
    have hall : ∀ x ∈ (c :: cs).map
        (class_f1 (yt.map normalize_label) (yt.map normalize_label)), x = 1 := by
      intro x hx
      obtain ⟨d, hd, hdx⟩ := List.mem_map.mp hx
      have hdmem : d ∈ yt.map normalize_label := by
        have hd2 : d ∈ classSetOf yt yt := hcs ▸ List.mem_cons.mpr
          (List.mem_cons.mp hd)
        have hd3 := mem_of_mem_pyDedup (show d ∈ pyDedup
          (yt.map normalize_label ++ yt.map normalize_label) from hd2)
        rcases List.mem_append.mp hd3 with h' | h' <;> exact h'
      rw [← hdx]
      exact perfect_class_f1 yt d hdmem
    rw [List.sum_eq_card_nsmul _ 1 hall]
    have hlen : ((c :: cs).length : ℚ) ≠ 0 := by
      simp only [List.length_cons]
      exact_mod_cast Nat.succ_ne_zero cs.length
    simp only [List.length_map, nsmul_eq_mul, mul_one]
    exact div_self hlen

/-- C3: on every pair of equal-length label sequences the reference engine
returns a value (a finite rational in the model) lying in `[0,1]`; and it
returns exactly `1.0` whenever truth and prediction agree at every position
and at least one label occurs. -/
theorem macro_f1_range_and_perfect :
    (∀ y_true y_pred : List Label, y_true.length = y_pred.length →
        ∃ r, macro_f1_ref y_true y_pred = .ok r ∧ 0 ≤ r ∧ r ≤ 1) ∧
    (∀ y_true : List Label, y_true ≠ [] → macro_f1_ref y_true y_true = .ok 1) := by
  constructor
  · intro yt yp h
    exact ⟨macro_policy yt yp, macro_f1_ref_eq_macro_policy yt yp h,
      (macro_policy_bounds yt yp).1, (macro_policy_bounds yt yp).2⟩
  · intro yt h
    rw [macro_f1_ref_eq_macro_policy yt yt rfl, macro_policy_self_eq_one yt h]

/-- Witness for C3: a bounded value exists on `[0]` vs `[1]`, and identical
one-element inputs score exactly `1`. -/
theorem macro_f1_range_and_perfect_witness :
    (∃ r, macro_f1_ref [iL 0] [iL 1] = .ok r ∧ 0 ≤ r ∧ r ≤ 1) ∧
    macro_f1_ref [sL "x"] [sL "x"] = .ok 1 :=
  ⟨macro_f1_range_and_perfect.1 [iL 0] [iL 1] rfl,
   macro_f1_range_and_perfect.2 [sL "x"] (by simp)⟩
